import Mathlib

/-!
Verification of `basicstats.c`.

A shallow embedding of the statistics program: a growable numeric buffer
(`DynamicArray`) together with the reducers `compute_mean`, `compute_stddev`,
`compute_median`, `compute_mode`, `compute_harmonic_mean`, the Babylonian
square-root primitive, ingestion, and the sort comparator. C `double` values
are modelled as exact rationals (ℚ); C `int` sizes as ℕ. The unbounded
`while` loop of `babylonian_sqrt` is given explicit fuel; once its guard
fails the fuel is irrelevant, which is how termination facts are stated.
-/

namespace BasicStats

/-- C `DynamicArray`: `data` holds the `size` stored values (the valid slice
`data[0 .. size)`), `capacity` the allocated slot count. -/
structure DynamicArray where
  data : List ℚ
  capacity : ℕ
  deriving DecidableEq

/-- The C field `array->size`: the number of stored elements. -/
def DynamicArray.size (a : DynamicArray) : ℕ := a.data.length

/-- C `create_dynamic_array`: no elements, the requested capacity (allocation
success assumed; on failure the C function returns NULL and `main` exits). -/
def create_dynamic_array (initial_capacity : ℕ) : DynamicArray :=
  ⟨[], initial_capacity⟩

/-- C `resize_array_if_needed`: doubles the capacity exactly when the array is
full (`size == capacity`); otherwise leaves the array unchanged. -/
def resize_array_if_needed (a : DynamicArray) : DynamicArray :=
  if a.size = a.capacity then ⟨a.data, 2 * a.capacity⟩ else a

/-- The append step in `read_data_from_file`:
`resize_array_if_needed(array); array->data[array->size++] = value;`. -/
def append_value (a : DynamicArray) (v : ℚ) : DynamicArray :=
  ⟨(resize_array_if_needed a).data ++ [v], (resize_array_if_needed a).capacity⟩

/-- Appending a whole list of values, left to right. -/
def append_list (a : DynamicArray) (l : List ℚ) : DynamicArray :=
  l.foldl append_value a

/-- Numeric value of a decimal digit character. -/
def digitVal (c : Char) : ℕ := c.toNat - 48

/-- Value of a digit string, most significant digit first. -/
def digitsVal (cs : List Char) : ℕ :=
  cs.foldl (fun acc c => 10 * acc + digitVal c) 0

/-- Modelled from the spec: the `%lf` conversion of libc `fscanf` (not part of
src/). Per the spec, ingestion "repeatedly parses whitespace-delimited tokens
as IEEE-754 double values … until the stream is exhausted or a token fails to
parse as a number". An unsigned token parses iff it is a decimal numeral:
digits with an optional `.` fractional part, at least one digit in total. -/
def parseUnsigned (cs : List Char) : Option ℚ :=
  let intPart := cs.takeWhile Char.isDigit
  let rest := cs.dropWhile Char.isDigit
  match rest with
  | [] => if intPart.isEmpty then none else some (digitsVal intPart : ℚ)
  | '.' :: frac =>
    if frac.all Char.isDigit && !(intPart.isEmpty && frac.isEmpty) then
      some ((digitsVal intPart : ℚ) + (digitsVal frac : ℚ) / (10 : ℚ) ^ frac.length)
    else none
  | _ => none

/-- Modelled from the spec: a whole whitespace-delimited token parses as a
double iff it is an optionally signed decimal numeral. -/
def parseToken (s : String) : Option ℚ :=
  match s.data with
  | '-' :: cs => (parseUnsigned cs).map (fun q => -q)
  | '+' :: cs => parseUnsigned cs
  | cs => parseUnsigned cs

/-- The scanning loop of `read_data_from_file`
(`while (fscanf(file, "%lf", &value) == 1)`): append tokens while they parse,
stop silently at the first token that does not. -/
def read_loop : List String → DynamicArray → DynamicArray
  | [], a => a
  | t :: ts, a =>
    match parseToken t with
    | none => a
    | some v => read_loop ts (append_value a v)

/-- C `read_data_from_file`: the `Option` argument models `fopen` — `none` is
a file that failed to open (the C function perrors and returns 0); otherwise
the token stream is scanned and the call returns 1. -/
def read_data_from_file (file : Option (List String)) (a : DynamicArray) :
    Option DynamicArray :=
  match file with
  | none => none
  | some toks => some (read_loop toks a)

/-- The accumulation loop of `compute_mean`. -/
def sum_loop (l : List ℚ) : ℚ := l.foldl (fun acc x => acc + x) 0

/-- C `compute_mean`: `sum / array->size`. (Division by zero yields 0 in ℚ
where C produces NaN; every claim concerns non-empty arrays.) -/
def compute_mean (a : DynamicArray) : ℚ := sum_loop a.data / (a.size : ℚ)

/-- The Babylonian iteration `x = (x + y) / 2; y = value / x` of
`babylonian_sqrt`, guard `x - y > 1e-6`, with explicit fuel standing for the
unbounded C `while`. -/
def bab_loop (value : ℚ) : ℕ → ℚ → ℚ → ℚ
  | 0, x, _ => x
  | fuel + 1, x, y =>
    if x - y > 1 / 1000000 then
      bab_loop value fuel ((x + y) / 2) (value / ((x + y) / 2))
    else x

/-- C `babylonian_sqrt`: the loop started from `x = value`, `y = 1.0`. -/
def babylonian_sqrt (fuel : ℕ) (value : ℚ) : ℚ := bab_loop value fuel value 1

/-- The accumulation loop of `compute_stddev`. -/
def sumsq_loop (mean : ℚ) (l : List ℚ) : ℚ :=
  l.foldl (fun acc x => acc + (x - mean) * (x - mean)) 0

/-- C `compute_stddev`: Babylonian square root of `sum_sq / array->size`
(population divisor). -/
def compute_stddev (fuel : ℕ) (a : DynamicArray) (mean : ℚ) : ℚ :=
  babylonian_sqrt fuel (sumsq_loop mean a.data / (a.size : ℚ))

/-- C `compute_median`. The C code indexes `data[middle_index - 1]` and
`data[middle_index]` unguarded; `getD _ 0` totalises the size-0 read, which
is undefined behaviour in the source. -/
def compute_median (a : DynamicArray) : ℚ :=
  let middle_index := a.size / 2
  if a.size % 2 = 0 then
    (a.data.getD (middle_index - 1) 0 + a.data.getD middle_index 0) / 2
  else a.data.getD middle_index 0

/-- The run-scanning loop of `compute_mode`: `prev` is `data[i-1]`; `mode`,
`max_count`, `current_count` are the C locals. On a run break the current run
is promoted only if strictly longer than the maximum so far; note the loop
ends without comparing the final run. -/
def mode_loop (prev : ℚ) : List ℚ → ℚ → ℕ → ℕ → ℚ
  | [], mode, _, _ => mode
  | x :: xs, mode, max_count, current_count =>
    if x = prev then mode_loop x xs mode max_count (current_count + 1)
    else if current_count > max_count then mode_loop x xs prev current_count 1
    else mode_loop x xs mode max_count 1

/-- C `compute_mode` (reads `data[0]` unguarded: size 0 is undefined behaviour
in the source, totalised to 0). -/
def compute_mode (a : DynamicArray) : ℚ :=
  match a.data with
  | [] => 0
  | m :: rest => mode_loop m rest m 1 1

/-- The accumulation loop of `compute_harmonic_mean`. -/
def recip_loop (l : List ℚ) : ℚ := l.foldl (fun acc x => acc + 1 / x) 0

/-- C `compute_harmonic_mean`: `array->size / denominator_sum`. -/
def compute_harmonic_mean (a : DynamicArray) : ℚ :=
  (a.size : ℚ) / recip_loop a.data

/-- C `compare_double`: `(diff > 0) - (diff < 0)`, the sign of `a - b`. -/
def compare_double (x y : ℚ) : ℤ :=
  (if x - y > 0 then 1 else 0) - (if x - y < 0 then 1 else 0)

/-- Modelled from the spec: the libc `qsort` call in `main` (not part of src/)
sorts ascending according to `compare_double`; modelled as insertion sort over
the order `compare_double x y ≤ 0` (over ℚ there are no NaNs, so this
comparator order is a total preorder). -/
def sort_data (l : List ℚ) : List ℚ :=
  List.insertionSort (fun x y => compare_double x y ≤ 0) l

/-- The in-place `qsort(array->data, array->size, …)` call, array to array. -/
def sort_array (a : DynamicArray) : DynamicArray :=
  ⟨sort_data a.data, a.capacity⟩

/-! Helper lemmas. -/

theorem resize_data (a : DynamicArray) : (resize_array_if_needed a).data = a.data := by
  unfold resize_array_if_needed
  split <;> rfl

theorem resize_capacity (a : DynamicArray) :
    (resize_array_if_needed a).capacity =
      if a.size = a.capacity then 2 * a.capacity else a.capacity := by
  unfold resize_array_if_needed
  split <;> simp_all

theorem append_value_data (a : DynamicArray) (v : ℚ) :
    (append_value a v).data = a.data ++ [v] := by
  unfold append_value
  rw [resize_data]

theorem append_value_size (a : DynamicArray) (v : ℚ) :
    (append_value a v).size = a.size + 1 := by
  show (append_value a v).data.length = a.data.length + 1
  rw [append_value_data]
  simp

theorem append_value_capacity (a : DynamicArray) (v : ℚ) :
    (append_value a v).capacity =
      if a.size = a.capacity then 2 * a.capacity else a.capacity := by
  unfold append_value
  rw [resize_capacity]

theorem append_list_data : ∀ (l : List ℚ) (a : DynamicArray),
    (append_list a l).data = a.data ++ l
  | [], a => by simp [append_list]
  | v :: vs, a => by
    show (append_list (append_value a v) vs).data = _
    rw [append_list_data vs, append_value_data]
    simp

theorem append_list_size (l : List ℚ) (a : DynamicArray) :
    (append_list a l).size = a.size + l.length := by
  show (append_list a l).data.length = a.data.length + l.length
  rw [append_list_data]
  simp

theorem bab_loop_stop (value x y : ℚ) (h : ¬ x - y > 1 / 1000000) :
    ∀ fuel, bab_loop value fuel x y = x
  | 0 => rfl
  | fuel + 1 => by rw [bab_loop, if_neg h]

theorem bab_loop_step (value x y : ℚ) (fuel : ℕ) (h : x - y > 1 / 1000000) :
    bab_loop value (fuel + 1) x y =
      bab_loop value fuel ((x + y) / 2) (value / ((x + y) / 2)) := by
  rw [bab_loop, if_pos h]

/-- Four Babylonian iterations settle `sqrt 2`: the exact rational iterates are
`3/2, 17/12, 577/408, 665857/470832`, and at the last one the guard
`x - y > 1e-6` fails, so any further fuel is unused. -/
theorem bab_sqrt_two (k : ℕ) : babylonian_sqrt (k + 4) 2 = 665857 / 470832 := by
  show bab_loop 2 (k + 4) 2 1 = _
  have e1 : k + 4 = (k + 3) + 1 := by omega
  have e2 : k + 3 = (k + 2) + 1 := by omega
  have e3 : k + 2 = (k + 1) + 1 := by omega
  rw [e1, bab_loop_step 2 2 1 _ (by norm_num)]
  norm_num
  rw [e2, bab_loop_step 2 (3 / 2) (4 / 3) _ (by norm_num)]
  norm_num
  rw [e3, bab_loop_step 2 (17 / 12) (24 / 17) _ (by norm_num)]
  norm_num
  rw [bab_loop_step 2 (577 / 408) (816 / 577) _ (by norm_num)]
  norm_num
  exact bab_loop_stop 2 (665857 / 470832) (941664 / 665857) (by norm_num) k

theorem foldl_add_eq (f : ℚ → ℚ) : ∀ (l : List ℚ) (acc : ℚ),
    l.foldl (fun a x => a + f x) acc = acc + (l.map f).sum
  | [], acc => by simp
  | x :: xs, acc => by
    rw [List.foldl_cons, foldl_add_eq f xs]
    simp [add_assoc]

theorem sum_loop_eq (l : List ℚ) : sum_loop l = l.sum := by
  have h := foldl_add_eq id l 0
  simpa [sum_loop] using h

theorem sumsq_loop_eq (mean : ℚ) (l : List ℚ) :
    sumsq_loop mean l = (l.map (fun x => (x - mean) ^ 2)).sum := by
  have h := foldl_add_eq (fun x => (x - mean) * (x - mean)) l 0
  simp only [sumsq_loop, pow_two]
  simpa using h

theorem recip_loop_eq (l : List ℚ) : recip_loop l = (l.map (fun x => 1 / x)).sum := by
  have h := foldl_add_eq (fun x => 1 / x) l 0
  simpa [recip_loop] using h

theorem compare_double_nonpos (x y : ℚ) : compare_double x y ≤ 0 ↔ x ≤ y := by
  unfold compare_double
  constructor
  · intro h
    by_contra hxy
    push_neg at hxy
    rw [if_pos (by linarith : x - y > 0), if_neg (by linarith : ¬ x - y < 0)] at h
    norm_num at h
  · intro h
    rw [if_neg (by linarith : ¬ x - y > 0)]
    split_ifs <;> norm_num

/-! Claims. -/

/-- C1. The claim says `compute_mode` of the sorted buffer `[1,1,2,3,3,3]`
is 3 (the longest run). The source loop only promotes a run when the *next*
different element is seen, so the final run of the array is never compared
against the maximum: on `[1,1,2,3,3,3]` the code returns 1, contradicting the
claim (and the spec's own expected output). On `[1,1,2,2]` it returns 1 as the
claim says, because there the decisive run is not the final one. -/
theorem C1_mode_ignores_final_run :
    compute_mode ⟨[1, 1, 2, 3, 3, 3], 20⟩ = 1 ∧
    compute_mode ⟨[1, 1, 2, 2], 20⟩ = 1 := by
  constructor <;> decide

/-- C2. For any argument `v ≤ 1 + 1e-6` (so in particular 0, everything in
(0,1), and every negative value) the guard `x - y > 1e-6` of
`babylonian_sqrt` is false on entry (`x = v`, `y = 1`), and the function
returns its argument unchanged; consequently `compute_stddev` returns the
variance `sum_sq / size` itself whenever that variance is at most `1 + 1e-6`. -/
theorem C2_sqrt_identity_below_one :
    (∀ (fuel : ℕ) (v : ℚ), v ≤ 1 + 1 / 1000000 → babylonian_sqrt fuel v = v) ∧
    (∀ (fuel : ℕ) (a : DynamicArray) (mean : ℚ),
      sumsq_loop mean a.data / (a.size : ℚ) ≤ 1 + 1 / 1000000 →
      compute_stddev fuel a mean = sumsq_loop mean a.data / (a.size : ℚ)) := by
  have hbase : ∀ (fuel : ℕ) (v : ℚ), v ≤ 1 + 1 / 1000000 → babylonian_sqrt fuel v = v := by
    intro fuel v hv
    exact bab_loop_stop v v 1 (by linarith) fuel
  refine ⟨hbase, ?_⟩
  intro fuel a mean hvar
  exact hbase fuel _ hvar

theorem C2_witness :
    babylonian_sqrt 7 (1 / 2) = 1 / 2 ∧
    compute_stddev 7 ⟨[1, 2, 3], 9⟩ 2 = 2 / 3 := by
  constructor
  · exact C2_sqrt_identity_below_one.1 7 (1 / 2) (by norm_num)
  · have h := C2_sqrt_identity_below_one.2 7 ⟨[1, 2, 3], 9⟩ 2
      (by norm_num [sumsq_loop, DynamicArray.size])
    rw [h]
    norm_num [sumsq_loop, DynamicArray.size]

/-- C3. On a sorted buffer of even size at least 2, `compute_median`
averages the elements at indices `size/2 - 1` and `size/2`; on odd size it
returns the element at index `size/2`; in particular the median of
`[1,2,3,4]` is 2.500 and the median of `[1,2,3]` is 2.000. -/
theorem C3_median_central_elements :
    (∀ (a : DynamicArray), ∀ he : a.size % 2 = 0, ∀ h2 : 2 ≤ a.size,
      compute_median a =
        (a.data.get ⟨a.size / 2 - 1, by simp only [DynamicArray.size] at h2 ⊢; omega⟩ +
         a.data.get ⟨a.size / 2, by simp only [DynamicArray.size] at h2 ⊢; omega⟩) / 2) ∧
    (∀ (a : DynamicArray), ∀ ho : a.size % 2 = 1,
      compute_median a =
        a.data.get ⟨a.size / 2, by simp only [DynamicArray.size] at ho ⊢; omega⟩) ∧
    compute_median ⟨[1, 2, 3, 4], 4⟩ = 5 / 2 ∧
    compute_median ⟨[1, 2, 3], 3⟩ = 2 := by
  refine ⟨?_, ?_, ?_, ?_⟩
  · intro a he h2
    have hlen : a.data.length = a.size := rfl
    unfold compute_median
    rw [if_pos he, List.getD_eq_get a.data 0 (by omega), List.getD_eq_get a.data 0 (by omega)]
  · intro a ho
    have hlen : a.data.length = a.size := rfl
    have hpos : 1 ≤ a.size := by omega
    unfold compute_median
    rw [if_neg (by omega), List.getD_eq_get a.data 0 (by omega)]
  · norm_num [compute_median, DynamicArray.size]
  · norm_num [compute_median, DynamicArray.size]

theorem C3_median_witness :
    compute_median ⟨[1, 2, 3, 4], 4⟩ = 5 / 2 ∧ compute_median ⟨[1, 2, 3], 3⟩ = 2 := by
  constructor
  · have h := C3_median_central_elements.1 ⟨[1, 2, 3, 4], 4⟩ (by decide) (by decide)
    rw [h]
    norm_num [DynamicArray.size]
  · have h := C3_median_central_elements.2.1 ⟨[1, 2, 3], 3⟩ (by decide)
    rw [h]
    norm_num [DynamicArray.size]

/-- C8. On input 2 the Babylonian iteration terminates: after four
iterations (any surplus fuel is unused) it returns the exact rational
`665857/470832`, which is within `1e-6` of `1.41421356`; and
`babylonian_sqrt 0 = 0`, because with `x = 0`, `y = 1` the guard is false on
entry. -/
theorem C8_babylonian_sqrt_two :
    (∀ k : ℕ, babylonian_sqrt (k + 4) 2 = 665857 / 470832) ∧
    (∀ k : ℕ, |babylonian_sqrt (k + 4) 2 - 141421356 / 100000000| ≤ 1 / 1000000) ∧
    (∀ fuel : ℕ, babylonian_sqrt fuel 0 = 0) := by
  refine ⟨bab_sqrt_two, ?_, ?_⟩
  · intro k
    rw [bab_sqrt_two k, abs_le]
    constructor <;> norm_num
  · intro fuel
    exact bab_loop_stop 0 0 1 (by norm_num) fuel

/-- C10. `create_dynamic_array` with a positive requested capacity yields
size 0 and exactly the requested capacity, so `size ≤ capacity` holds; and a
single append — including one that doubles the capacity — preserves
`size ≤ capacity` (and positivity of the capacity). -/
theorem C10_size_le_capacity_invariant :
    (∀ n : ℕ, 1 ≤ n →
      (create_dynamic_array n).size = 0 ∧
      (create_dynamic_array n).capacity = n ∧
      (create_dynamic_array n).size ≤ (create_dynamic_array n).capacity ∧
      1 ≤ (create_dynamic_array n).capacity) ∧
    (∀ (a : DynamicArray) (v : ℚ), a.size ≤ a.capacity → 1 ≤ a.capacity →
      (append_value a v).size ≤ (append_value a v).capacity ∧
      1 ≤ (append_value a v).capacity) := by
  constructor
  · intro n hn
    refine ⟨rfl, rfl, ?_, hn⟩
    show (0 : ℕ) ≤ n
    omega
  · intro a v hsc hc
    rw [append_value_size, append_value_capacity]
    by_cases hfull : a.size = a.capacity
    · rw [if_pos hfull]
      omega
    · rw [if_neg hfull]
      omega

/-- Reachability invariant behind C5: starting from capacity 1, a
doubling-growth array always has capacity `2 ^ clog 2 (max size 1)`. -/
def doubling_inv (a : DynamicArray) : Prop :=
  a.size ≤ a.capacity ∧ a.capacity = 2 ^ Nat.clog 2 (max a.size 1)

theorem doubling_inv_append (a : DynamicArray) (v : ℚ) (h : doubling_inv a) :
    doubling_inv (append_value a v) := by
  obtain ⟨hsc, hcap⟩ := h
  unfold doubling_inv
  rw [append_value_size, append_value_capacity]
  by_cases hfull : a.size = a.capacity
  · rw [if_pos hfull]
    have hk1 : 1 ≤ a.size := by
      rcases Nat.eq_zero_or_pos a.size with h0 | h1
      · exfalso
        rw [h0] at hfull
        rw [h0] at hcap
        simp at hcap
        omega
      · exact h1
    have hmaxk : max a.size 1 = a.size := Nat.max_eq_left hk1
    have hkpow : a.size = 2 ^ Nat.clog 2 (max a.size 1) := by rw [← hcap, hfull]
    have hmax1 : max (a.size + 1) 1 = a.size + 1 := Nat.max_eq_left (by omega)
    have hle : Nat.clog 2 (a.size + 1) ≤ Nat.clog 2 (max a.size 1) + 1 := by
      rw [← Nat.le_pow_iff_clog_le one_lt_two, pow_succ, ← hkpow]
      omega
    have hge : Nat.clog 2 (max a.size 1) + 1 ≤ Nat.clog 2 (a.size + 1) := by
      by_contra hcon
      push_neg at hcon
      have : a.size + 1 ≤ 2 ^ Nat.clog 2 (max a.size 1) :=
        (Nat.le_pow_iff_clog_le one_lt_two).mpr (by omega)
      omega
    constructor
    · omega
    · rw [hmax1, Nat.le_antisymm hle hge, pow_succ, hcap]
      ring
  · rw [if_neg hfull]
    have hlt : a.size < a.capacity := lt_of_le_of_ne hsc hfull
    refine ⟨by omega, ?_⟩
    have hmax1 : max (a.size + 1) 1 = a.size + 1 := Nat.max_eq_left (by omega)
    have hle : Nat.clog 2 (a.size + 1) ≤ Nat.clog 2 (max a.size 1) := by
      rw [← Nat.le_pow_iff_clog_le one_lt_two, ← hcap]
      omega
    have hge : Nat.clog 2 (max a.size 1) ≤ Nat.clog 2 (a.size + 1) :=
      Nat.clog_mono_right 2 (by omega)
    rw [hmax1, Nat.le_antisymm hle hge, hcap]

theorem doubling_inv_append_list : ∀ (l : List ℚ) (a : DynamicArray),
    doubling_inv a → doubling_inv (append_list a l)
  | [], _, h => h
  | v :: vs, a, h => doubling_inv_append_list vs _ (doubling_inv_append a v h)

theorem doubling_inv_create_one : doubling_inv (create_dynamic_array 1) := by
  constructor
  · show (0 : ℕ) ≤ 1
    omega
  · show (1 : ℕ) = 2 ^ Nat.clog 2 (max 0 1)
    simp [Nat.clog_one_right]

/-- C5. `append_value` stores the value at the end, increments the size by
one, and doubles the capacity exactly when the array was full; consequently,
appending `N ≥ 1` values to an array created with capacity 1 yields all `N`
values in order, size `N`, and capacity the least power of two that is at
least `N`. -/
theorem C5_doubling_growth :
    (∀ (a : DynamicArray) (v : ℚ),
      (append_value a v).data = a.data ++ [v] ∧
      (append_value a v).size = a.size + 1 ∧
      (append_value a v).capacity =
        if a.size = a.capacity then 2 * a.capacity else a.capacity) ∧
    (∀ l : List ℚ, 1 ≤ l.length →
      (append_list (create_dynamic_array 1) l).data = l ∧
      (append_list (create_dynamic_array 1) l).size = l.length ∧
      (∃ j, (append_list (create_dynamic_array 1) l).capacity = 2 ^ j) ∧
      l.length ≤ (append_list (create_dynamic_array 1) l).capacity ∧
      ∀ j : ℕ, l.length ≤ 2 ^ j →
        (append_list (create_dynamic_array 1) l).capacity ≤ 2 ^ j) := by
  constructor
  · intro a v
    exact ⟨append_value_data a v, append_value_size a v, append_value_capacity a v⟩
  · intro l hl
    have hdata : (append_list (create_dynamic_array 1) l).data = l := by
      rw [append_list_data]
      rfl
    have hsize : (append_list (create_dynamic_array 1) l).size = l.length := by
      rw [append_list_size]
      simp [create_dynamic_array, DynamicArray.size]
    have hinv := doubling_inv_append_list l _ doubling_inv_create_one
    obtain ⟨_, hcap⟩ := hinv
    rw [hsize] at hcap
    have hmax : max l.length 1 = l.length := Nat.max_eq_left hl
    rw [hmax] at hcap
    refine ⟨hdata, hsize, ⟨Nat.clog 2 l.length, hcap⟩, ?_, ?_⟩
    · rw [hcap]
      exact Nat.le_pow_clog one_lt_two l.length
    · intro j hj
      rw [hcap]
      exact Nat.pow_le_pow_right (by omega) ((Nat.le_pow_iff_clog_le one_lt_two).mp hj)

theorem C5_witness :
    (append_list (create_dynamic_array 1) [5, 6, 7]).data = [5, 6, 7] ∧
    (append_list (create_dynamic_array 1) [5, 6, 7]).size = 3 ∧
    (append_list (create_dynamic_array 1) [5, 6, 7]).capacity = 4 := by
  obtain ⟨hdata, hsize, _, _, hmin⟩ := C5_doubling_growth.2 [5, 6, 7] (by norm_num)
  refine ⟨hdata, hsize, ?_⟩
  decide

/-- C6. `compute_stddev` is the Babylonian square root of the mean of
squared deviations from the given mean, with population divisor `size`; it is
invariant under permutation of the stored values; and on `[1,2,3,4,5]` with
the arithmetic mean computed by `compute_mean` it returns `665857/470832`,
which is within `0.001` of `1.414`. -/
theorem C6_stddev_population :
    (∀ (fuel : ℕ) (a : DynamicArray) (mean : ℚ),
      compute_stddev fuel a mean =
        babylonian_sqrt fuel
          ((a.data.map (fun x => (x - mean) ^ 2)).sum / (a.size : ℚ))) ∧
    (∀ (fuel : ℕ) (a b : DynamicArray) (mean : ℚ), a.data.Perm b.data →
      compute_stddev fuel a mean = compute_stddev fuel b mean) ∧
    (∀ k : ℕ,
      compute_stddev (k + 4) ⟨[1, 2, 3, 4, 5], 20⟩ (compute_mean ⟨[1, 2, 3, 4, 5], 20⟩)
        = 665857 / 470832) ∧
    (∀ k : ℕ,
      |compute_stddev (k + 4) ⟨[1, 2, 3, 4, 5], 20⟩ (compute_mean ⟨[1, 2, 3, 4, 5], 20⟩)
        - 1414 / 1000| < 1 / 1000) := by
  have hmean : compute_mean ⟨[1, 2, 3, 4, 5], 20⟩ = 3 := by
    norm_num [compute_mean, sum_loop, DynamicArray.size]
  have hconc : ∀ k : ℕ,
      compute_stddev (k + 4) ⟨[1, 2, 3, 4, 5], 20⟩ (compute_mean ⟨[1, 2, 3, 4, 5], 20⟩)
        = 665857 / 470832 := by
    intro k
    rw [hmean]
    show babylonian_sqrt (k + 4)
      (sumsq_loop 3 [1, 2, 3, 4, 5] / ((DynamicArray.size ⟨[1, 2, 3, 4, 5], 20⟩ : ℕ) : ℚ))
      = 665857 / 470832
    have hvar : sumsq_loop 3 [1, 2, 3, 4, 5]
        / ((DynamicArray.size ⟨[1, 2, 3, 4, 5], 20⟩ : ℕ) : ℚ) = 2 := by
      norm_num [sumsq_loop, DynamicArray.size]
    rw [hvar]
    exact bab_sqrt_two k
  refine ⟨?_, ?_, hconc, ?_⟩
  · intro fuel a mean
    unfold compute_stddev
    rw [sumsq_loop_eq]
  · intro fuel a b mean hperm
    unfold compute_stddev
    rw [sumsq_loop_eq, sumsq_loop_eq,
      (hperm.map (fun x => (x - mean) ^ 2)).sum_eq,
      show a.size = b.size from hperm.length_eq]
  · intro k
    rw [hconc k, abs_lt]
    constructor <;> norm_num

theorem C6_witness :
    compute_stddev 3 ⟨[1, 2], 5⟩ 0 = compute_stddev 3 ⟨[2, 1], 7⟩ 0 :=
  C6_stddev_population.2.1 3 ⟨[1, 2], 5⟩ ⟨[2, 1], 7⟩ 0 (by decide)

/-- C7. `compute_harmonic_mean` is `size` divided by the sum of the
reciprocals of the stored values (stated for buffers with no zero element, as
in the claim); `compute_mean` is the sum divided by the size; on
`[1,2,3,4,5]` the harmonic mean `300/137` is within `0.001` of `2.189` and
the arithmetic mean is 3. -/
theorem C7_harmonic_mean :
    (∀ a : DynamicArray, (∀ x ∈ a.data, x ≠ 0) →
      compute_harmonic_mean a = (a.size : ℚ) / (a.data.map (fun x => 1 / x)).sum) ∧
    (∀ a : DynamicArray, compute_mean a = a.data.sum / (a.size : ℚ)) ∧
    |compute_harmonic_mean ⟨[1, 2, 3, 4, 5], 20⟩ - 2189 / 1000| < 1 / 1000 ∧
    compute_mean ⟨[1, 2, 3, 4, 5], 20⟩ = 3 := by
  refine ⟨?_, ?_, ?_, ?_⟩
  · intro a _
    unfold compute_harmonic_mean
    rw [recip_loop_eq]
  · intro a
    unfold compute_mean
    rw [sum_loop_eq]
  · have h : compute_harmonic_mean ⟨[1, 2, 3, 4, 5], 20⟩ = 300 / 137 := by
      norm_num [compute_harmonic_mean, recip_loop, DynamicArray.size]
    rw [h, abs_lt]
    constructor <;> norm_num
  · norm_num [compute_mean, sum_loop, DynamicArray.size]

theorem C7_witness : compute_harmonic_mean ⟨[1, 2], 5⟩ = 4 / 3 := by
  have h := C7_harmonic_mean.1 ⟨[1, 2], 5⟩ (by decide)
  rw [h]
  norm_num [DynamicArray.size]

theorem read_loop_stops_at_bad_token :
    ∀ (ts1 : List String) (t : String) (ts2 : List String) (a : DynamicArray),
    (∀ s ∈ ts1, (parseToken s).isSome = true) → parseToken t = none →
    read_loop (ts1 ++ t :: ts2) a = append_list a (ts1.filterMap parseToken)
  | [], t, ts2, a, _, ht => by
    show read_loop (t :: ts2) a = _
    simp [read_loop, ht, append_list]
  | s :: ts1, t, ts2, a, hall, ht => by
    obtain ⟨v, hv⟩ := Option.isSome_iff_exists.mp (hall s (by simp))
    show read_loop (s :: (ts1 ++ t :: ts2)) a = _
    rw [read_loop, hv]
    show read_loop (ts1 ++ t :: ts2) (append_value a v) = _
    rw [read_loop_stops_at_bad_token ts1 t ts2 (append_value a v)
      (fun x hx => hall x (by simp [hx])) ht]
    simp [List.filterMap_cons, hv, append_list]

/-- C4. Ingestion fails exactly when the file cannot be opened; on an open
stream it appends the parsed values of the maximal all-numeric token run and
stops silently at the first non-numeric token (anything after it is ignored);
in particular `"10 20 20 30 abc 40"` loads exactly `[10,20,20,30]` — size 4,
mean 20, and (after the driver's sort) median 20 and mode 20. -/
theorem C4_ingestion_stops_at_bad_token :
    (∀ (f : Option (List String)) (a : DynamicArray),
      read_data_from_file f a = none ↔ f = none) ∧
    (∀ (ts1 : List String) (t : String) (ts2 : List String) (a : DynamicArray),
      (∀ s ∈ ts1, (parseToken s).isSome = true) → parseToken t = none →
      read_data_from_file (some (ts1 ++ t :: ts2)) a =
        some (append_list a (ts1.filterMap parseToken))) ∧
    read_data_from_file (some ["10", "20", "20", "30", "abc", "40"])
        (create_dynamic_array 20)
      = some ⟨[10, 20, 20, 30], 20⟩ ∧
    DynamicArray.size ⟨[10, 20, 20, 30], 20⟩ = 4 ∧
    compute_mean ⟨[10, 20, 20, 30], 20⟩ = 20 ∧
    compute_median (sort_array ⟨[10, 20, 20, 30], 20⟩) = 20 ∧
    compute_mode (sort_array ⟨[10, 20, 20, 30], 20⟩) = 20 := by
  have hs : sort_data [10, 20, 20, 30] = [10, 20, 20, 30] := by
    norm_num [sort_data, List.insertionSort, List.orderedInsert, compare_double]
  have hsa : sort_array ⟨[10, 20, 20, 30], 20⟩ = ⟨[10, 20, 20, 30], 20⟩ := by
    simp only [sort_array]
    rw [hs]
  refine ⟨?_, ?_, ?_, ?_, ?_, ?_, ?_⟩
  · intro f a
    cases f <;> simp [read_data_from_file]
  · intro ts1 t ts2 a hall ht
    show some (read_loop (ts1 ++ t :: ts2) a) = _
    rw [read_loop_stops_at_bad_token ts1 t ts2 a hall ht]
  · decide
  · decide
  · norm_num [compute_mean, sum_loop, DynamicArray.size]
  · rw [hsa]
    norm_num [compute_median, DynamicArray.size]
  · rw [hsa]
    decide

theorem C4_witness :
    read_data_from_file (some ["10", "20", "abc", "40"]) (create_dynamic_array 5) =
      some (append_list (create_dynamic_array 5) (["10", "20"].filterMap parseToken)) :=
  C4_ingestion_stops_at_bad_token.2.1 ["10", "20"] "abc" ["40"]
    (create_dynamic_array 5) (by decide) (by decide)

/-- C9. Sorting with the comparator `sign(a - b)` (over ℚ, where it is a
total preorder) is idempotent on every non-empty buffer — a second sort is the
identity on an already-sorted list — and the sorted result is a permutation
of the input: no values are added, removed, or changed. -/
theorem C9_sort_idempotent_permutation :
    (∀ l : List ℚ, l ≠ [] → sort_data (sort_data l) = sort_data l) ∧
    (∀ l : List ℚ, l ≠ [] → (sort_data l).Perm l) := by
  haveI htot : IsTotal ℚ (fun x y => compare_double x y ≤ 0) := ⟨by
    intro a b
    rcases le_total a b with h | h
    · exact Or.inl ((compare_double_nonpos a b).mpr h)
    · exact Or.inr ((compare_double_nonpos b a).mpr h)⟩
  haveI htrans : IsTrans ℚ (fun x y => compare_double x y ≤ 0) := ⟨by
    intro a b c hab hbc
    exact (compare_double_nonpos a c).mpr
      (le_trans ((compare_double_nonpos a b).mp hab) ((compare_double_nonpos b c).mp hbc))⟩
  constructor
  · intro l _
    exact List.Sorted.insertionSort_eq (List.sorted_insertionSort _ l)
  · intro l _
    exact List.perm_insertionSort _ l

theorem C9_witness :
    sort_data (sort_data [3, 1, 2]) = sort_data [3, 1, 2] ∧
    (sort_data [3, 1, 2]).Perm [3, 1, 2] :=
  ⟨C9_sort_idempotent_permutation.1 [3, 1, 2] (by decide),
   C9_sort_idempotent_permutation.2 [3, 1, 2] (by decide)⟩

theorem C10_witness :
    (create_dynamic_array 20).size ≤ (create_dynamic_array 20).capacity ∧
    (append_value (create_dynamic_array 20) 5).size ≤
      (append_value (create_dynamic_array 20) 5).capacity := by
  constructor
  · exact (C10_size_le_capacity_invariant.1 20 (by norm_num)).2.2.1
  · exact (C10_size_le_capacity_invariant.2 (create_dynamic_array 20) 5
      (by decide) (by decide)).1

end BasicStats
